import Mathlib

/-!
Verification development for the job auto-discovery, configuration-extraction
and dispatch layer of a PostgreSQL-backed job queue wrapper.

The TypeScript sources are shallowly embedded: handler classes become a
`JobClassDesc` record of the static properties the code inspects, JavaScript
string operations (`String.prototype.replace` with the concrete regular
expressions used by the code, `toLowerCase`, truthiness tests) become explicit
Lean functions on `List Char` / `String`, thrown exceptions become
`Option String` / `Except String` error values, and the logger / queue-engine
side effects of a discovery pass become explicit `log` / `regs` lists.
Identifier-level character operations model the ASCII behaviour of the
JavaScript regexes `[A-Z]`, `([a-z])([A-Z])` and of `toLowerCase` (class names
are ASCII identifiers).
-/

namespace JobsSpec

/-- ASCII uppercase test, the JS regex character class `[A-Z]`. -/
def isUpperAscii (c : Char) : Bool := 'A' ≤ c && c ≤ 'Z'

/-- ASCII lowercase test, the JS regex character class `[a-z]`. -/
def isLowerAscii (c : Char) : Bool := 'a' ≤ c && c ≤ 'z'

/-- ASCII lowercasing of one character, as JS `toLowerCase` acts on ASCII. -/
def lowerAscii (c : Char) : Char :=
  if isUpperAscii c then Char.ofNat (c.toNat + 32) else c

/-- JS `s.replace(/pat$/, '')` for a literal pattern `pat`: if the string ends
with `pat`, the final occurrence is removed, otherwise the string is kept. -/
def stripSuffixL (pat cs : List Char) : List Char :=
  if pat.isSuffixOf cs then cs.take (cs.length - pat.length) else cs

/-- JS `s.replace(/([A-Z])/g, '-$1')`: a hyphen is inserted before every
ASCII uppercase letter, including consecutive ones and a leading one. -/
def hyphenBeforeUppers (cs : List Char) : List Char :=
  (cs.map (fun c => if isUpperAscii c then ['-', c] else [c])).flatten

/-- JS `s.toLowerCase()` on ASCII identifier text. -/
def mapLower (cs : List Char) : List Char := cs.map lowerAscii

/-- JS replace of the regex "leading hyphen" by the empty string: one
leading hyphen is removed if present. -/
def stripLeadHyphenL : List Char → List Char
  | '-' :: rest => rest
  | cs => cs

def jobSuffixChars : List Char := ['J', 'o', 'b']

def cronSuffixChars : List Char := ['C', 'r', 'o', 'n']

/-- The class-name-to-kebab-case derivation shared, textually identically, by
`JobConfigExtractor.getJobName` (job_config_extractor.ts lines 181-188) and
`JobManager.getJobName` (job_manager.ts lines 117-126):
`name.replace(/Job$/, '').replace(/Cron$/, '')`, then a hyphen inserted
before every ASCII uppercase letter, `toLowerCase()`, and removal of one
leading hyphen. -/
def kebabChars (cs : List Char) : List Char :=
  stripLeadHyphenL (mapLower (hyphenBeforeUppers
    (stripSuffixL cronSuffixChars (stripSuffixL jobSuffixChars cs))))

def kebabFromClassName (n : String) : String := (kebabChars n.toList).asString

/-- JS value stored under a key of a work/schedule options object. -/
inductive JsValue where
  | str (s : String)
  | num (n : Int)
  | boolean (b : Bool)
deriving Repr, DecidableEq

/-- A JS plain object used as an options bag: association list with unique
keys (JS objects cannot hold duplicate keys). -/
def OptionsObj := List (String × JsValue)

instance : DecidableEq OptionsObj := by
  unfold OptionsObj
  infer_instance

instance : Repr OptionsObj := by
  unfold OptionsObj
  infer_instance

/-- Property lookup on an options object. -/
def objGet (o : OptionsObj) (k : String) : Option JsValue :=
  match o with
  | [] => none
  | (k₀, v₀) :: rest => if k₀ = k then some v₀ else objGet rest k

/-- JS property write `o[k] = v`: an existing key is updated in place, a new
key is appended. -/
def objSet (o : OptionsObj) (k : String) (v : JsValue) : OptionsObj :=
  match o with
  | [] => [(k, v)]
  | (k₀, v₀) :: rest => if k₀ = k then (k₀, v) :: rest else (k₀, v₀) :: objSet rest k v

/-- JS `Object.assign(base, over)`: every key of `over` is written onto
`base` in order. -/
def objAssign (base over : OptionsObj) : OptionsObj :=
  over.foldl (fun acc kv => objSet acc kv.1 kv.2) base

/-- The static properties of a handler class that the discovery and dispatch
code inspects. `Option` captures the presence-and-type guards the code
performs (for the string-valued statics, `some s` means the property exists
and `typeof` is string). `filepathIsString` is the outcome of
`typeof JobClass.$$filepath === 'string'` in `hasFilepathProperty`. -/
structure JobClassDesc where
  name : String
  jobName : Option String := none
  queue : Option String := none
  cron : Option String := none
  schedule : Option String := none
  workOptions : Option OptionsObj := none
  scheduleOptions : Option OptionsObj := none
  filepathIsString : Bool := true
deriving Repr, DecidableEq

/-- The global settings the extractor and discovery consult
(`PgBossConfig.queues` and `PgBossConfig.defaultQueue`). `none` models an
absent field. -/
structure PgBossConfig where
  queues : Option (List String) := none
  defaultQueue : Option String := none
deriving Repr, DecidableEq

/-- `JobConfigExtractor.getJobName`, first variant (job_config_extractor.ts
lines 39-49): explicit `jobName` when present with string type (even when
empty), else `className.replace(/Job$/, '').replace(/([a-z])([A-Z])/g,
'$1-$2').toLowerCase()`. -/
def camelSplitL : List Char → List Char
  | a :: b :: rest =>
    if isLowerAscii a && isUpperAscii b then a :: '-' :: b :: camelSplitL rest
    else a :: camelSplitL (b :: rest)
  | cs => cs

def extractorGetJobNameV1 (c : JobClassDesc) : String :=
  match c.jobName with
  | some s => s
  | none => (mapLower (camelSplitL (stripSuffixL jobSuffixChars c.name.toList))).asString

/-- `JobConfigExtractor.getJobName`, second variant (job_config_extractor.ts
lines 176-189): explicit `jobName` when present with string type (even when
empty), else the shared kebab-case derivation. -/
def extractorGetJobNameV2 (c : JobClassDesc) : String :=
  match c.jobName with
  | some s => s
  | none => kebabFromClassName c.name

/-- `JobManager.getJobName` (job_manager.ts lines 109-127): the explicit name
is honored only when truthy (`if (explicitName)`), so an empty-string
`jobName` falls through to the derivation from the class name. -/
def managerGetJobName (c : JobClassDesc) : String :=
  match c.jobName with
  | some s => if s = "" then kebabFromClassName c.name else s
  | none => kebabFromClassName c.name

/-- `this.config.defaultQueue || 'default'`: JS truthiness makes an absent or
empty `defaultQueue` fall back to the literal. -/
def defaultQueueFallback (cfg : PgBossConfig) : String :=
  match cfg.defaultQueue with
  | some d => if d = "" then "default" else d
  | none => "default"

/-- `JobConfigExtractor.resolveQueue` (job_config_extractor.ts lines 227-233):
`if (specifiedQueue) return specifiedQueue; return this.config.defaultQueue
|| 'default'`. -/
def resolveQueue (cfg : PgBossConfig) (specifiedQueue : Option String) : String :=
  match specifiedQueue with
  | some q => if q = "" then defaultQueueFallback cfg else q
  | none => defaultQueueFallback cfg

/-- `Array.prototype.join(', ')` over the allowed-queue list. -/
def joinComma : List String → String
  | [] => ""
  | [s] => s
  | s :: rest => s ++ ", " ++ joinComma rest

def invalidQueueMsg (q path : String) (qs : List String) : String :=
  "Invalid queue \"" ++ q ++ "\" in " ++ path ++ ". Available queues: " ++ joinComma qs

def invalidDefaultQueueMsg (d : String) (qs : List String) : String :=
  "Invalid defaultQueue \"" ++ d ++ "\". Must be one of: " ++ joinComma qs

def missingScheduleMsg (n : String) : String :=
  "Schedulable class " ++ n ++ " must have static schedule property"

def missingFilepathMsg (p : String) : String :=
  "Job class from " ++ p ++
    " is missing required static $$filepath property. Add: static get $$filepath() \x7b return import.meta.url \x7d"

def cronMissingFilepathMsg (p : String) : String :=
  "Cron class from " ++ p ++
    " is missing required static $$filepath property. Add: static get $$filepath() \x7b return import.meta.url \x7d"

def importFailMsg (p m : String) : String := "Failed to import " ++ p ++ ": " ++ m

def registerDispatchFailMsg (p : String) : String :=
  "Failed to register dispatchable job from " ++ p ++ ":"

def registerScheduleFailMsg (p : String) : String :=
  "Failed to register schedulable cron from " ++ p ++ ":"

def workerRegisteredMsg (j : String) : String :=
  "Worker registered for dispatchable job: " ++ j

def cronScheduledMsg (j s : String) : String :=
  "Scheduled cron job: " ++ j ++ " with schedule: " ++ s

/-- The derived `JobConfig` record of the second extractor variant. -/
structure JobConfig where
  jobName : String
  queue : String
  workOptions : Option OptionsObj
deriving Repr, DecidableEq

/-- The derived `CronConfig` record. -/
structure CronConfig where
  jobName : String
  queue : String
  schedule : String
  scheduleOptions : Option OptionsObj
deriving Repr, DecidableEq

/-- The derived `JobConfig` record of the first extractor variant (it also
carries the cron expression and schedule options). -/
structure JobConfigV1 where
  jobName : String
  queue : String
  cron : Option String
  workOptions : Option OptionsObj
  scheduleOptions : Option OptionsObj
deriving Repr, DecidableEq

/-- `JobConfigExtractor.getWorkOptions`, first variant
(job_config_extractor.ts lines 65-81): start from an empty bag, write the
class's string-typed `queue` under key `queue` when present, then
`Object.assign` the class's own `workOptions` object on top, and return the
bag only when it is non-empty. -/
def getWorkOptionsV1 (c : JobClassDesc) : Option OptionsObj :=
  let o : OptionsObj := []
  let o₁ := match c.queue with
    | some q => objSet o "queue" (JsValue.str q)
    | none => o
  let o₂ := match c.workOptions with
    | some w => objAssign o₁ w
    | none => o₁
  if o₂.length > 0 then some o₂ else none

/-- `JobConfigExtractor.getScheduleOptions`, first variant
(job_config_extractor.ts lines 84-100), same shape for `scheduleOptions`. -/
def getScheduleOptionsV1 (c : JobClassDesc) : Option OptionsObj :=
  let o : OptionsObj := []
  let o₁ := match c.queue with
    | some q => objSet o "queue" (JsValue.str q)
    | none => o
  let o₂ := match c.scheduleOptions with
    | some w => objAssign o₁ w
    | none => o₁
  if o₂.length > 0 then some o₂ else none

/-- `JobConfigExtractor.getWorkOptions`, second variant
(job_config_extractor.ts lines 205-214): the class's `workOptions` object is
returned as-is when it is a truthy object, with no queue injection. -/
def getWorkOptionsV2 (c : JobClassDesc) : Option OptionsObj := c.workOptions

/-- `JobConfigExtractor.getScheduleOptions`, second variant
(job_config_extractor.ts lines 216-225). -/
def getScheduleOptionsV2 (c : JobClassDesc) : Option OptionsObj := c.scheduleOptions

/-- `JobConfigExtractor.extractJobConfig`, first variant
(job_config_extractor.ts lines 14-29). -/
def extractJobConfigV1 (cfg : PgBossConfig) (c : JobClassDesc) : JobConfigV1 :=
  { jobName := extractorGetJobNameV1 c
    queue := resolveQueue cfg c.queue
    cron := c.cron
    workOptions := getWorkOptionsV1 c
    scheduleOptions := getScheduleOptionsV1 c }

/-- `JobConfigExtractor.extractJobConfig`, second variant
(job_config_extractor.ts lines 125-137). -/
def extractJobConfigV2 (cfg : PgBossConfig) (c : JobClassDesc) : JobConfig :=
  { jobName := extractorGetJobNameV2 c
    queue := resolveQueue cfg c.queue
    workOptions := getWorkOptionsV2 c }

/-- `JobConfigExtractor.extractCronConfig` (job_config_extractor.ts lines
141-158): the schedule is read with a string-type guard, and then
`if (!schedule)` throws, so both an absent and an empty-string schedule are
rejected with a message naming the class. -/
def extractCronConfig (cfg : PgBossConfig) (c : JobClassDesc) : Except String CronConfig :=
  match c.schedule with
  | none => .error (missingScheduleMsg c.name)
  | some s =>
    if s = "" then .error (missingScheduleMsg c.name)
    else
      .ok { jobName := extractorGetJobNameV2 c
            queue := resolveQueue cfg c.queue
            schedule := s
            scheduleOptions := getScheduleOptionsV2 c }

/-- `JobConfigExtractor.validateJobConfig` (job_config_extractor.ts lines
160-166): the guard is JS truthiness of `this.config.queues`, so an empty
allowed-queue array still activates membership checking. `some msg` models
the thrown error. -/
def validateJobConfig (cfg : PgBossConfig) (conf : JobConfig) (filePath : String) :
    Option String :=
  match cfg.queues with
  | some qs =>
    if qs.contains conf.queue then none
    else some (invalidQueueMsg conf.queue filePath qs)
  | none => none

/-- `JobConfigExtractor.validateCronConfig` (job_config_extractor.ts lines
168-174), textually the same check for a `CronConfig`. -/
def validateCronConfig (cfg : PgBossConfig) (conf : CronConfig) (filePath : String) :
    Option String :=
  match cfg.queues with
  | some qs =>
    if qs.contains conf.queue then none
    else some (invalidQueueMsg conf.queue filePath qs)
  | none => none

/-- `JobAutoDiscovery.validateDefaultQueue` (auto_discovery.ts lines
111-119): checked only when both settings are truthy; throws when
`defaultQueue` is not a member of `queues`. -/
def validateDefaultQueue (cfg : PgBossConfig) : Option String :=
  match cfg.defaultQueue, cfg.queues with
  | some d, some qs =>
    if d = "" then none
    else if qs.contains d then none
    else some (invalidDefaultQueueMsg d qs)
  | _, _ => none

/-- The outcome of `await import(fileUrl)` followed by the default-export
guard in `JobAutoDiscovery.importClassInitial` (auto_discovery.ts lines
83-100): the module load throws, or the default export is missing / not a
function (the method returns `null`), or a constructible class is obtained. -/
inductive ImportOutcome where
  | throws (msg : String)
  | nullExport
  | clazz (c : JobClassDesc)
deriving Repr, DecidableEq

/-- A side effect recorded against the queue engine: a worker installed via
`work(jobName, options, handler)` or a schedule installed via
`schedule(jobName, cronExpr, data, options)`. -/
inductive Registered where
  | worker (jobName : String) (opts : OptionsObj)
  | cron (jobName : String) (schedule : String) (opts : OptionsObj)
deriving Repr, DecidableEq

/-- Observable result of (part of) a discovery pass: logger lines emitted,
engine registrations performed, and the propagated error if one was thrown. -/
structure PassResult where
  log : List String
  regs : List Registered
  err : Option String
deriving Repr, DecidableEq

/-- `JobAutoDiscovery.registerDispatchableFromFile` (auto_discovery.ts lines
36-57) applied to one scanned path together with the outcome of importing it.
An import failure is logged by `importClassInitial` and rethrown, then logged
again by the outer catch and rethrown. A `null` class returns silently. A
class without a string `$$filepath` throws. Otherwise the config is
extracted, validated, and the worker is registered through
`JobManager.registerDispatchable` (job_manager.ts lines 131-146), which
resolves the name with `JobManager.getJobName`, calls
`work(jobName, options || \x7b\x7d, handler)` and logs one line. -/
def registerDispatchableFromFile (cfg : PgBossConfig) :
    String × ImportOutcome → PassResult
  | (path, .throws m) =>
    ⟨[importFailMsg path m, registerDispatchFailMsg path], [], some m⟩
  | (_, .nullExport) => ⟨[], [], none⟩
  | (path, .clazz c) =>
    if c.filepathIsString then
      let conf := extractJobConfigV2 cfg c
      match validateJobConfig cfg conf path with
      | some e => ⟨[registerDispatchFailMsg path], [], some e⟩
      | none =>
        ⟨[workerRegisteredMsg (managerGetJobName c)],
         [.worker (managerGetJobName c) ((getWorkOptionsV2 c).getD [])], none⟩
    else ⟨[registerDispatchFailMsg path], [], some (missingFilepathMsg path)⟩

/-- `JobAutoDiscovery.registerSchedulableFromFile` (auto_discovery.ts lines
59-80) together with `JobManager.registerSchedulable` (job_manager.ts lines
149-172), which installs a worker with empty options, installs the schedule
with `options || \x7b\x7d`, and logs one line. -/
def registerSchedulableFromFile (cfg : PgBossConfig) :
    String × ImportOutcome → PassResult
  | (path, .throws m) =>
    ⟨[importFailMsg path m, registerScheduleFailMsg path], [], some m⟩
  | (_, .nullExport) => ⟨[], [], none⟩
  | (path, .clazz c) =>
    if c.filepathIsString then
      match extractCronConfig cfg c with
      | .error e => ⟨[registerScheduleFailMsg path], [], some e⟩
      | .ok conf =>
        match validateCronConfig cfg conf path with
        | some e => ⟨[registerScheduleFailMsg path], [], some e⟩
        | none =>
          ⟨[cronScheduledMsg (managerGetJobName c) conf.schedule],
           [.worker (managerGetJobName c) [],
            .cron (managerGetJobName c) conf.schedule (conf.scheduleOptions.getD [])],
           none⟩
    else ⟨[registerScheduleFailMsg path], [], some (cronMissingFilepathMsg path)⟩

/-- The per-file loop of `JobAutoDiscovery.discover`: files are processed in
scan order; a thrown error aborts the loop so later files are not touched. -/
def runPass (step : String × ImportOutcome → PassResult) :
    List (String × ImportOutcome) → PassResult
  | [] => ⟨[], [], none⟩
  | f :: rest =>
    let r := step f
    match r.err with
    | some e => ⟨r.log, r.regs, some e⟩
    | none =>
      let rr := runPass step rest
      ⟨r.log ++ rr.log, r.regs ++ rr.regs, rr.err⟩

/-- `JobAutoDiscovery.discover` (auto_discovery.ts lines 18-34): settings are
validated first; then every scanned dispatchable-job file is processed, then
every scanned cron file. The two file lists stand for the outcomes of the
`scanJobFiles` / `scanCronFiles` calls paired with what importing each path
would do. -/
def discover (cfg : PgBossConfig)
    (jobFiles cronFiles : List (String × ImportOutcome)) : PassResult :=
  match validateDefaultQueue cfg with
  | some e => ⟨[], [], some e⟩
  | none =>
    let jr := runPass (registerDispatchableFromFile cfg) jobFiles
    match jr.err with
    | some _ => jr
    | none =>
      let cr := runPass (registerSchedulableFromFile cfg) cronFiles
      ⟨jr.log ++ cr.log, jr.regs ++ cr.regs, cr.err⟩

/- A directory tree as `readdir(dir, \x7b withFileTypes: true \x7d)` exposes
it: each entry is a plain file or a subdirectory with its own entries. -/
mutual
inductive FsEntry where
  | file : String → FsEntry
  | dir : String → FsEntries → FsEntry
inductive FsEntries where
  | nil : FsEntries
  | cons : FsEntry → FsEntries → FsEntries
end

/-- `JobFileScanner.isJobFile`: the filename must end in the job-file
suffix convention. -/
def isJobFile (filename : String) : Bool :=
  filename.endsWith "_job.ts" || filename.endsWith "_job.js"

/-- `join(dir, entry.name)` for the simple relative names produced by
`readdir`. -/
def joinPath (dir name : String) : String := dir ++ "/" ++ name

/- The recursive body of `JobFileScanner.scanJobFiles` (unnamed/part_009
lines 5-26): entries are walked in order, directories are descended into
with the shared accumulator, and matching filenames are pushed. -/
mutual
def scanEntryAcc (d : String) (files : List String) : FsEntry → List String
  | .file n => if isJobFile n then files ++ [joinPath d n] else files
  | .dir n sub => scanEntriesAcc (joinPath d n) files sub
def scanEntriesAcc (d : String) (files : List String) : FsEntries → List String
  | .nil => files
  | .cons e rest => scanEntriesAcc d (scanEntryAcc d files e) rest
end

/-- `JobFileScanner.scanJobFiles` from the root: a failing `readdir` on the
root directory (in particular a non-existent directory, modelled by `none`)
is caught and yields the empty list. -/
def scanJobFiles (root : String) : Option FsEntries → List String
  | none => []
  | some es => scanEntriesAcc root [] es

/- Accumulator-free recollection of the matching file paths of a tree, used
to characterise `scanJobFiles`. -/
mutual
def collectEntry (d : String) : FsEntry → List String
  | .file n => if isJobFile n then [joinPath d n] else []
  | .dir n sub => collectEntries (joinPath d n) sub
def collectEntries (d : String) : FsEntries → List String
  | .nil => []
  | .cons e rest => collectEntry d e ++ collectEntries d rest
end

/- `EntryFileAt d e p` / `JobFileAt d es p`: the path `p` names a file whose
filename matches the job-file convention, located somewhere (at any depth)
inside the entry `e` / the entry list `es` rooted at directory path `d`. -/
mutual
inductive EntryFileAt : String → FsEntry → String → Prop where
  | file {d n} : isJobFile n = true → EntryFileAt d (.file n) (joinPath d n)
  | dir {d n sub p} : JobFileAt (joinPath d n) sub p → EntryFileAt d (.dir n sub) p
inductive JobFileAt : String → FsEntries → String → Prop where
  | head {d e rest p} : EntryFileAt d e p → JobFileAt d (.cons e rest) p
  | tail {d e rest p} : JobFileAt d rest p → JobFileAt d (.cons e rest) p
end

/-- Substring containment, used to state which data an error message must
carry. -/
def strContains (hay needle : String) : Prop := ∃ a b, hay = a ++ needle ++ b

/-- Modelled from the specification's NameResolver wording, for comparison
with the implementation: insert a hyphen before each uppercase letter that
follows a non-uppercase character (so a leading letter and letters inside an
uppercase run get none). `prev` is the preceding character. -/
def specHyphenGo (prev : Char) : List Char → List Char
  | [] => []
  | c :: rest =>
    if isUpperAscii c && !isUpperAscii prev then '-' :: c :: specHyphenGo c rest
    else c :: specHyphenGo c rest

def specHyphenateAfterNonUpper : List Char → List Char
  | [] => []
  | c :: rest => c :: specHyphenGo c rest

/-- Modelled from the specification's NameResolver wording, for comparison
with the implementation's derivation: strip a trailing Job or Cron suffix,
in that order, stripping exactly one suffix; hyphenate uppercase letters
that follow a non-uppercase character; lowercase; strip a leading hyphen. -/
def specResolveNameDerived (n : String) : String :=
  let cs := n.toList
  let stripped :=
    if jobSuffixChars.isSuffixOf cs then cs.take (cs.length - 3)
    else if cronSuffixChars.isSuffixOf cs then cs.take (cs.length - 4)
    else cs
  (stripLeadHyphenL (mapLower (specHyphenateAfterNonUpper stripped))).asString

/-- Single-pass restatement of the implementation's hyphenate-then-lowercase
steps: a hyphen before every ASCII uppercase letter, lowercasing fused in. -/
def lowerHyphenPass : List Char → List Char
  | [] => []
  | c :: rest =>
    if isUpperAscii c then '-' :: lowerAscii c :: lowerHyphenPass rest
    else lowerAscii c :: lowerHyphenPass rest

/-- Independent restatement of the implementation's full derivation: the Job
suffix is stripped first, then a Cron suffix is stripped from the result (so
a name ending in CronJob loses both), then the fused hyphen/lowercase pass,
then one leading hyphen is removed. -/
def amendedKebabName (n : String) : String :=
  let cs₁ := stripSuffixL jobSuffixChars n.toList
  let cs₂ := stripSuffixL cronSuffixChars cs₁
  (stripLeadHyphenL (lowerHyphenPass cs₂)).asString

/-- A JS object literal has pairwise distinct keys. -/
def keysNodup (o : OptionsObj) : Prop := (o.map Prod.fst).Nodup

/-- C5: the resolved queue is the descriptor's explicit queue when one is
set; otherwise the global `defaultQueue` when set; otherwise the literal
"default". First match wins, and an explicit descriptor queue wins
regardless of `defaultQueue` (the first conjunct holds for every
configuration). "Set" is the code's JS truthiness test, so a set queue is a
non-empty string. -/
theorem c5_resolve_queue_precedence (cfg : PgBossConfig) (q d : String)
    (hq : q ≠ "") (hd : d ≠ "") :
    resolveQueue cfg (some q) = q ∧
    resolveQueue { cfg with defaultQueue := some d } none = d ∧
    resolveQueue { cfg with defaultQueue := none } none = "default" := by
  refine ⟨?_, ?_, ?_⟩ <;> simp [resolveQueue, defaultQueueFallback, hq, hd]

/-- Witness for C5 at the spec's own example values. -/
theorem c5_resolve_queue_precedence_witness :
    resolveQueue ⟨some ["default", "emails"], some "emails"⟩ (some "payments") = "payments" ∧
    resolveQueue ⟨some ["default", "emails"], some "emails"⟩ none = "emails" ∧
    resolveQueue ⟨some ["default", "emails"], none⟩ none = "default" :=
  c5_resolve_queue_precedence ⟨some ["default", "emails"], some "emails"⟩
    "payments" "emails" (by decide) (by decide)

/-- C7: `extractCronConfig` fails, with a message containing the handler's
type name, exactly on a descriptor carrying no cron expression (no schedule
static, or the empty string, which the code's falsiness test also rejects);
when a non-empty expression is present the returned record's schedule field
equals it. -/
theorem c7_extract_cron_schedule (cfg : PgBossConfig) (c : JobClassDesc) :
    ((c.schedule = none ∨ c.schedule = some "") →
      extractCronConfig cfg c = .error (missingScheduleMsg c.name) ∧
      strContains (missingScheduleMsg c.name) c.name) ∧
    (∀ s, c.schedule = some s → s ≠ "" →
      ∃ conf, extractCronConfig cfg c = .ok conf ∧ conf.schedule = s) := by
  constructor
  · intro h
    have hmsg : strContains (missingScheduleMsg c.name) c.name :=
      ⟨"Schedulable class ", " must have static schedule property", by
        simp [missingScheduleMsg, String.append_assoc]⟩
    rcases h with h | h
    · exact ⟨by simp [extractCronConfig, h], hmsg⟩
    · exact ⟨by simp [extractCronConfig, h], hmsg⟩
  · intro s hs hne
    refine ⟨⟨extractorGetJobNameV2 c, resolveQueue cfg c.queue, s,
      getScheduleOptionsV2 c⟩, ?_, rfl⟩
    simp [extractCronConfig, hs, hne]

/-- Witness for C7: a schedule-less Schedulable is rejected with its type
name in the message, and one carrying an expression gets it back. -/
theorem c7_extract_cron_schedule_witness :
    (extractCronConfig ⟨none, none⟩
        ⟨"OAuthTokensCleanup", none, none, none, none, none, none, true⟩ =
      .error (missingScheduleMsg "OAuthTokensCleanup") ∧
      strContains (missingScheduleMsg "OAuthTokensCleanup") "OAuthTokensCleanup") ∧
    (∃ conf, extractCronConfig ⟨none, none⟩
        ⟨"OAuthTokensCleanup", none, none, none, some "0 * * * *", none, none, true⟩ =
      .ok conf ∧ conf.schedule = "0 * * * *") :=
  ⟨(c7_extract_cron_schedule ⟨none, none⟩
      ⟨"OAuthTokensCleanup", none, none, none, none, none, none, true⟩).1 (Or.inl rfl),
   (c7_extract_cron_schedule ⟨none, none⟩
      ⟨"OAuthTokensCleanup", none, none, none, some "0 * * * *", none, none, true⟩).2
     "0 * * * *" rfl (by decide)⟩

/-- C6: with both settings present (as truthy values) and `defaultQueue`
outside the allowed list, `discover` fails with a message carrying the
offending queue and the comma-joined list, before any scanned file
contributes anything: the result is the same, with no registration and no
log line, whatever the scanned directories hold. With either field absent no
settings error is raised. -/
theorem c6_default_queue_validated_first :
    (∀ (d : String) (qs : List String)
        (jobFiles cronFiles : List (String × ImportOutcome)),
      d ≠ "" → d ∉ qs →
      discover ⟨some qs, some d⟩ jobFiles cronFiles =
        ⟨[], [], some (invalidDefaultQueueMsg d qs)⟩ ∧
      strContains (invalidDefaultQueueMsg d qs) d ∧
      strContains (invalidDefaultQueueMsg d qs) (joinComma qs)) ∧
    (∀ cfg : PgBossConfig, cfg.defaultQueue = none ∨ cfg.queues = none →
      validateDefaultQueue cfg = none) := by
  constructor
  · intro d qs jobFiles cronFiles hne hmem
    refine ⟨?_, ?_, ?_⟩
    · simp [discover, validateDefaultQueue, hne, hmem]
    · exact ⟨"Invalid defaultQueue \"", "\". Must be one of: " ++ joinComma qs, by
        simp [invalidDefaultQueueMsg, String.append_assoc]⟩
    · exact ⟨"Invalid defaultQueue \"" ++ d ++ "\". Must be one of: ", "", by
        simp [invalidDefaultQueueMsg, String.append_assoc]⟩
  · intro cfg h
    rcases h with h | h
    · cases hq : cfg.queues <;> simp [validateDefaultQueue, h, hq]
    · cases hd : cfg.defaultQueue <;> simp [validateDefaultQueue, h, hd]

/-- Witness for C6 at the spec's example settings, with non-empty scanned
directories to exhibit that nothing from them is processed. -/
theorem c6_default_queue_validated_first_witness :
    discover ⟨some ["queue1", "queue2"], some "invalid-queue"⟩
        [("app/jobs/a_job.ts", .throws "boom")] [("app/cron/b_cron.ts", .nullExport)] =
      ⟨[], [], some (invalidDefaultQueueMsg "invalid-queue" ["queue1", "queue2"])⟩ ∧
    strContains (invalidDefaultQueueMsg "invalid-queue" ["queue1", "queue2"]) "invalid-queue" ∧
    strContains (invalidDefaultQueueMsg "invalid-queue" ["queue1", "queue2"])
      (joinComma ["queue1", "queue2"]) :=
  c6_default_queue_validated_first.1 "invalid-queue" ["queue1", "queue2"]
    [("app/jobs/a_job.ts", .throws "boom")] [("app/cron/b_cron.ts", .nullExport)]
    (by decide) (by decide)

/-- C10: a constructible default export without a string-valued static
$$filepath makes the file's registration throw an error whose message
contains the file path, however valid the rest of the class is, and the
discovery pass propagates it. -/
theorem c10_filepath_property_required (cfg : PgBossConfig) (path : String)
    (c : JobClassDesc) (h : c.filepathIsString = false) :
    registerDispatchableFromFile cfg (path, .clazz c) =
      ⟨[registerDispatchFailMsg path], [], some (missingFilepathMsg path)⟩ ∧
    strContains (missingFilepathMsg path) path ∧
    (validateDefaultQueue cfg = none →
      (discover cfg [(path, .clazz c)] []).err = some (missingFilepathMsg path)) := by
  refine ⟨?_, ?_, ?_⟩
  · simp [registerDispatchableFromFile, h]
  · exact ⟨"Job class from ",
      " is missing required static $$filepath property. Add: static get $$filepath() \x7b return import.meta.url \x7d",
      by simp [missingFilepathMsg, String.append_assoc]⟩
  · intro hv
    simp [discover, hv, runPass, registerDispatchableFromFile, h]

/-- Witness for C10: an otherwise fully configured job class lacking
$$filepath. -/
theorem c10_filepath_property_required_witness :
    registerDispatchableFromFile ⟨none, none⟩ ("app/jobs/send_email_job.ts",
        .clazz ⟨"SendEmailJob", none, some "emails", none, none, none, none, false⟩) =
      ⟨[registerDispatchFailMsg "app/jobs/send_email_job.ts"], [],
       some (missingFilepathMsg "app/jobs/send_email_job.ts")⟩ ∧
    strContains (missingFilepathMsg "app/jobs/send_email_job.ts") "app/jobs/send_email_job.ts" ∧
    (validateDefaultQueue ⟨none, none⟩ = none →
      (discover ⟨none, none⟩ [("app/jobs/send_email_job.ts",
          .clazz ⟨"SendEmailJob", none, some "emails", none, none, none, none, false⟩)] []).err =
        some (missingFilepathMsg "app/jobs/send_email_job.ts")) :=
  c10_filepath_property_required ⟨none, none⟩ "app/jobs/send_email_job.ts"
    ⟨"SendEmailJob", none, some "emails", none, none, none, none, false⟩ rfl

/-- Counterexample for C3: the code guards the membership check with JS
truthiness of `queues`, and an empty array is truthy, so a present-but-empty
allowed-queue list rejects every queue instead of accepting every queue as
the claim states. -/
theorem c3_empty_queues_cex :
    validateJobConfig ⟨some [], none⟩ ⟨"send-email", "default", none⟩
        "app/jobs/send_email_job.ts" =
      some (invalidQueueMsg "default" "app/jobs/send_email_job.ts" []) ∧
    validateJobConfig ⟨some [], none⟩ ⟨"send-email", "default", none⟩
        "app/jobs/send_email_job.ts" ≠ none := by
  refine ⟨by decide, by decide⟩

/-- C3 as amended: validation fails with a message carrying the offending
queue, the file path and the comma-joined allowed list in declaration order
exactly when `queues` is present and the resolved queue is not a member;
when `queues` is absent every queue is accepted. A present-but-empty list
therefore rejects every queue. Both `validateJobConfig` and
`validateCronConfig` behave this way. -/
theorem c3_queue_membership_validation (cfg : PgBossConfig) (conf : JobConfig)
    (confC : CronConfig) (path : String) :
    (cfg.queues = none →
      validateJobConfig cfg conf path = none ∧
      validateCronConfig cfg confC path = none) ∧
    (∀ qs, cfg.queues = some qs →
      ((validateJobConfig cfg conf path = none ↔ conf.queue ∈ qs) ∧
       (conf.queue ∉ qs →
         validateJobConfig cfg conf path =
           some (invalidQueueMsg conf.queue path qs) ∧
         strContains (invalidQueueMsg conf.queue path qs) conf.queue ∧
         strContains (invalidQueueMsg conf.queue path qs) path ∧
         strContains (invalidQueueMsg conf.queue path qs) (joinComma qs))) ∧
      (validateCronConfig cfg confC path = none ↔ confC.queue ∈ qs)) := by
  constructor
  · intro h
    exact ⟨by simp [validateJobConfig, h], by simp [validateCronConfig, h]⟩
  · intro qs h
    refine ⟨⟨?_, ?_⟩, ?_⟩
    · by_cases hm : conf.queue ∈ qs <;>
        simp [validateJobConfig, h, hm]
    · intro hm
      refine ⟨by simp [validateJobConfig, h, hm], ?_, ?_, ?_⟩
      · exact ⟨"Invalid queue \"",
          "\" in " ++ path ++ ". Available queues: " ++ joinComma qs, by
          simp [invalidQueueMsg, String.append_assoc]⟩
      · exact ⟨"Invalid queue \"" ++ conf.queue ++ "\" in ",
          ". Available queues: " ++ joinComma qs, by
          simp [invalidQueueMsg, String.append_assoc]⟩
      · exact ⟨"Invalid queue \"" ++ conf.queue ++ "\" in " ++ path ++
          ". Available queues: ", "", by
          simp [invalidQueueMsg, String.append_assoc]⟩
    · by_cases hm : confC.queue ∈ qs <;>
        simp [validateCronConfig, h, hm]

/-- Witness for C3 as amended: the spec's own example values — the invalid
queue is rejected against a present list with the full message, and accepted
when `queues` is absent. -/
theorem c3_queue_membership_validation_witness :
    validateJobConfig ⟨some ["default", "emails"], none⟩
        ⟨"send-email", "invalid-queue", none⟩ "app/jobs/send_email_job.ts" =
      some (invalidQueueMsg "invalid-queue" "app/jobs/send_email_job.ts"
        ["default", "emails"]) ∧
    validateJobConfig ⟨none, none⟩ ⟨"send-email", "invalid-queue", none⟩
        "app/jobs/send_email_job.ts" = none :=
  ⟨(((c3_queue_membership_validation ⟨some ["default", "emails"], none⟩
        ⟨"send-email", "invalid-queue", none⟩
        ⟨"cleanup", "default", "0 * * * *", none⟩
        "app/jobs/send_email_job.ts").2 ["default", "emails"] rfl).1.2
      (by decide)).1,
   ((c3_queue_membership_validation ⟨none, none⟩
        ⟨"send-email", "invalid-queue", none⟩
        ⟨"cleanup", "default", "0 * * * *", none⟩
        "app/jobs/send_email_job.ts").1 rfl).1⟩

/-- C1: in a discovery pass, a file whose import throws makes the per-file
registration log the import error (with path and underlying message) and the
outer failure line and rethrow; the pass then stops, leaving the results of
the earlier files untouched and processing none of the later ones. A file
whose module loads but offers no constructible default export contributes
nothing at all — the pass over the remaining paths is unchanged. The final
conjunct: a failing jobs pass is exactly what `discover` returns. -/
theorem c1_import_throw_vs_null_skip :
    (∀ (cfg : PgBossConfig) (path m : String),
      registerDispatchableFromFile cfg (path, .throws m) =
        ⟨[importFailMsg path m, registerDispatchFailMsg path], [], some m⟩ ∧
      strContains (importFailMsg path m) path ∧
      strContains (importFailMsg path m) m) ∧
    (∀ (cfg : PgBossConfig) (pre : List (String × ImportOutcome)) (path : String)
        (post : List (String × ImportOutcome)),
      runPass (registerDispatchableFromFile cfg) (pre ++ (path, .nullExport) :: post) =
        runPass (registerDispatchableFromFile cfg) (pre ++ post)) ∧
    (∀ (cfg : PgBossConfig) (pre : List (String × ImportOutcome)) (path m : String)
        (post : List (String × ImportOutcome)),
      (runPass (registerDispatchableFromFile cfg) pre).err = none →
      runPass (registerDispatchableFromFile cfg) (pre ++ (path, .throws m) :: post) =
        ⟨(runPass (registerDispatchableFromFile cfg) pre).log ++
           [importFailMsg path m, registerDispatchFailMsg path],
         (runPass (registerDispatchableFromFile cfg) pre).regs, some m⟩) ∧
    (∀ (cfg : PgBossConfig) (jobFiles cronFiles : List (String × ImportOutcome))
        (e : String),
      validateDefaultQueue cfg = none →
      (runPass (registerDispatchableFromFile cfg) jobFiles).err = some e →
      discover cfg jobFiles cronFiles =
        runPass (registerDispatchableFromFile cfg) jobFiles) := by
  refine ⟨?_, ?_, ?_, ?_⟩
  · intro cfg path m
    refine ⟨rfl, ?_, ?_⟩
    · exact ⟨"Failed to import ", ": " ++ m, by
        simp [importFailMsg, String.append_assoc]⟩
    · exact ⟨"Failed to import " ++ path ++ ": ", "", by
        simp [importFailMsg, String.append_assoc]⟩
  · intro cfg pre path post
    induction pre with
    | nil => simp [runPass, registerDispatchableFromFile]
    | cons f pre ih =>
      simp only [List.cons_append, runPass, List.append_eq]
      rw [ih]
  · intro cfg pre path m post
    induction pre with
    | nil =>
      intro _
      simp [runPass, registerDispatchableFromFile]
    | cons f pre ih =>
      intro h
      simp only [List.cons_append, runPass, List.append_eq] at h ⊢
      cases hf : (registerDispatchableFromFile cfg f).err with
      | some e => simp [hf] at h
      | none =>
        simp only [hf] at h ⊢
        have h' : (runPass (registerDispatchableFromFile cfg) pre).err = none := h
        rw [ih h']
        simp [List.append_assoc]
  · intro cfg jobFiles cronFiles e hv he
    simp [discover, hv, he]

/-- Witness for C1: a three-file pass where the middle file's import throws;
the first file was skipped as a null export and the third is never
processed. -/
theorem c1_import_throw_vs_null_skip_witness :
    (runPass (registerDispatchableFromFile ⟨none, none⟩)
        [("app/jobs/a_job.ts", .nullExport)]).err = none ∧
    runPass (registerDispatchableFromFile ⟨none, none⟩)
        ([("app/jobs/a_job.ts", .nullExport)] ++
          ("app/jobs/b_job.ts", .throws "boom") :: [("app/jobs/c_job.ts", .nullExport)]) =
      ⟨(runPass (registerDispatchableFromFile ⟨none, none⟩)
          [("app/jobs/a_job.ts", .nullExport)]).log ++
         [importFailMsg "app/jobs/b_job.ts" "boom",
          registerDispatchFailMsg "app/jobs/b_job.ts"],
       (runPass (registerDispatchableFromFile ⟨none, none⟩)
          [("app/jobs/a_job.ts", .nullExport)]).regs, some "boom"⟩ :=
  ⟨rfl, c1_import_throw_vs_null_skip.2.2.1 ⟨none, none⟩
    [("app/jobs/a_job.ts", .nullExport)] "app/jobs/b_job.ts" "boom"
    [("app/jobs/c_job.ts", .nullExport)] rfl⟩

theorem mapLower_hyphenBeforeUppers (cs : List Char) :
    mapLower (hyphenBeforeUppers cs) = lowerHyphenPass cs := by
  induction cs with
  | nil => rfl
  | cons c rest ih =>
    have hdash : lowerAscii '-' = '-' := by decide
    cases h : isUpperAscii c <;>
      simp [hyphenBeforeUppers, mapLower, lowerHyphenPass, h, hdash, ← ih]

/-- Counterexample for C2: on the class name "ABCronJob" the code strips
both suffixes (Job, then Cron from the result) and hyphenates inside the
uppercase run, producing "a-b", while the claimed algorithm (exactly one
suffix stripped, hyphens only after a non-uppercase character) produces
"abcron". -/
theorem c2_name_derivation_cex :
    managerGetJobName ⟨"ABCronJob", none, none, none, none, none, none, true⟩ = "a-b" ∧
    specResolveNameDerived "ABCronJob" = "abcron" ∧
    ("a-b" : String) ≠ "abcron" := by
  refine ⟨by decide, by decide, by decide⟩

/-- C2 as amended: with no explicit override, the resolved job name strips a
trailing Job suffix, then a trailing Cron suffix from the result (so a name
ending in CronJob loses both), inserts a hyphen before every uppercase
letter (also inside uppercase runs), lowercases, and strips one leading
hyphen. `amendedKebabName` restates that algorithm independently of the
implementation's composition. -/
theorem c2_name_derivation_amended (c : JobClassDesc) (h : c.jobName = none) :
    managerGetJobName c = amendedKebabName c.name := by
  simp [managerGetJobName, h, kebabFromClassName, kebabChars, amendedKebabName,
    mapLower_hyphenBeforeUppers]

/-- Witness for C2 as amended, at the spec's flagship example. -/
theorem c2_name_derivation_amended_witness :
    managerGetJobName ⟨"SendEmailNotificationJob", none, none, none, none, none,
        none, true⟩ =
      amendedKebabName "SendEmailNotificationJob" :=
  c2_name_derivation_amended
    ⟨"SendEmailNotificationJob", none, none, none, none, none, none, true⟩ rfl

/-- Counterexample for C9: with an empty-string `jobName` the extractor's
`typeof`-guarded branch returns it verbatim while the manager's truthiness
test falls through to the class-name derivation, so registration-side and
dispatch-side names disagree; the first extractor variant also disagrees
with the manager on a Cron-suffixed class even without an override. -/
theorem c9_names_cex :
    extractorGetJobNameV2 ⟨"FooJob", some "", none, none, none, none, none, true⟩ = "" ∧
    managerGetJobName ⟨"FooJob", some "", none, none, none, none, none, true⟩ = "foo" ∧
    extractorGetJobNameV1 ⟨"DailyCleanupCron", none, none, none, none, none, none, true⟩ =
      "daily-cleanup-cron" ∧
    managerGetJobName ⟨"DailyCleanupCron", none, none, none, none, none, none, true⟩ =
      "daily-cleanup" := by
  refine ⟨by decide, by decide, by decide, by decide⟩

/-- C9 as amended: whenever the static `jobName` is absent or a non-empty
string, the job name the (current) extractor computes during discovery
equals the one the manager computes for dispatch, so a dispatched job is
addressed to its worker's name; the empty-string override is the one
exception. -/
theorem c9_names_agree_amended (c : JobClassDesc)
    (h : c.jobName = none ∨ ∃ s, c.jobName = some s ∧ s ≠ "") :
    extractorGetJobNameV2 c = managerGetJobName c := by
  rcases h with h | ⟨s, hs, hne⟩
  · simp [extractorGetJobNameV2, managerGetJobName, h]
  · simp [extractorGetJobNameV2, managerGetJobName, hs, hne]

/-- Witness for C9 as amended: agreement both without an override and with a
non-empty one. -/
theorem c9_names_agree_amended_witness :
    extractorGetJobNameV2 ⟨"SendEmailNotificationJob", none, none, none, none,
        none, none, true⟩ =
      managerGetJobName ⟨"SendEmailNotificationJob", none, none, none, none,
        none, none, true⟩ ∧
    extractorGetJobNameV2 ⟨"X", some "custom", none, none, none, none, none, true⟩ =
      managerGetJobName ⟨"X", some "custom", none, none, none, none, none, true⟩ :=
  ⟨c9_names_agree_amended
      ⟨"SendEmailNotificationJob", none, none, none, none, none, none, true⟩
      (Or.inl rfl),
   c9_names_agree_amended ⟨"X", some "custom", none, none, none, none, none, true⟩
      (Or.inr ⟨"custom", rfl, by decide⟩)⟩

theorem objGet_objSet (o : OptionsObj) (k : String) (v : JsValue) (k' : String) :
    objGet (objSet o k v) k' = if k = k' then some v else objGet o k' := by
  induction o with
  | nil => simp [objSet, objGet]
  | cons kv rest ih =>
    obtain ⟨k₀, v₀⟩ := kv
    by_cases h : k₀ = k
    · subst h
      by_cases h' : k₀ = k' <;> simp [objSet, objGet, h']
    · by_cases h' : k₀ = k'
      · subst h'
        have hne : k ≠ k₀ := fun hh => h hh.symm
        simp [objSet, objGet, h, hne]
      · simp [objSet, objGet, h, h', ih]

theorem objGet_eq_none_of_not_mem (o : OptionsObj) (k : String)
    (h : k ∉ o.map Prod.fst) : objGet o k = none := by
  induction o with
  | nil => rfl
  | cons kv rest ih =>
    obtain ⟨k₀, v₀⟩ := kv
    simp only [List.map_cons, List.mem_cons, not_or] at h
    simp [objGet, Ne.symm h.1, ih h.2]

theorem length_le_objSet (o : OptionsObj) (k : String) (v : JsValue) :
    o.length ≤ (objSet o k v).length := by
  induction o with
  | nil => simp [objSet]
  | cons kv rest ih =>
    obtain ⟨k₀, v₀⟩ := kv
    by_cases h : k₀ = k
    · subst h
      simp [objSet]
    · simp only [objSet, if_neg h, List.length_cons]
      exact Nat.succ_le_succ ih

theorem length_le_objAssign (base over : OptionsObj) :
    base.length ≤ (objAssign base over).length := by
  induction over generalizing base with
  | nil => simp [objAssign]
  | cons kv rest ih =>
    have hstep : objAssign base (kv :: rest) = objAssign (objSet base kv.1 kv.2) rest := by
      simp [objAssign]
    rw [hstep]
    exact le_trans (length_le_objSet base kv.1 kv.2) (ih (objSet base kv.1 kv.2))

theorem objGet_objAssign (base over : OptionsObj) (k : String) (hnd : keysNodup over) :
    objGet (objAssign base over) k =
      match objGet over k with
      | some v => some v
      | none => objGet base k := by
  revert hnd
  induction over generalizing base with
  | nil => intro _; simp [objAssign, objGet]
  | cons kv rest ih =>
    intro hnd
    obtain ⟨k₀, v₀⟩ := kv
    have hnd' : (k₀ :: rest.map Prod.fst).Nodup := hnd
    have hpair := List.nodup_cons.mp hnd'
    have hstep : objAssign base ((k₀, v₀) :: rest) = objAssign (objSet base k₀ v₀) rest := by
      simp [objAssign]
    rw [hstep, ih (objSet base k₀ v₀) hpair.2]
    by_cases h : k₀ = k
    · subst h
      have hnone : objGet rest k₀ = none := objGet_eq_none_of_not_mem rest k₀ hpair.1
      simp [objGet, hnone, objGet_objSet]
    · cases hg : objGet rest k <;> simp [hg, objGet, h, objGet_objSet]

/-- Counterexample for C4: under the second (current) `getWorkOptions`
variant, a descriptor declaring a queue but no `workOptions` object yields
no work-options bag at all — the queue is not injected, contradicting the
claim that the extracted options always contain at least the resolved
queue. -/
theorem c4_work_options_cex :
    (extractJobConfigV2 ⟨none, none⟩
        ⟨"SendEmailJob", none, some "emails", none, none, none, none, true⟩).workOptions =
      none ∧
    (⟨"SendEmailJob", none, some "emails", none, none, none, none, true⟩ :
        JobClassDesc).queue = some "emails" :=
  ⟨rfl, rfl⟩

/-- C4 as amended: only the first `getWorkOptions` variant injects the
declared queue under key "queue" before the descriptor's own `workOptions`
object is merged on top — so the handler's object can override the key, and
a queue-only descriptor still yields a bag holding the queue. The second
(current) variant returns the descriptor's `workOptions` unchanged, with no
injection, so there a queue-only descriptor yields no bag (see the
counterexample). -/
theorem c4_work_options_queue_injection :
    (∀ (c : JobClassDesc) (q : String) (w : OptionsObj),
      c.queue = some q → c.workOptions = some w → keysNodup w →
      ∃ o, getWorkOptionsV1 c = some o ∧
        objGet o "queue" = some ((objGet w "queue").getD (JsValue.str q))) ∧
    (∀ (c : JobClassDesc) (q : String),
      c.queue = some q → c.workOptions = none →
      getWorkOptionsV1 c = some [("queue", JsValue.str q)]) ∧
    (∀ (cfg : PgBossConfig) (c : JobClassDesc),
      (extractJobConfigV1 cfg c).workOptions = getWorkOptionsV1 c) ∧
    (∀ (cfg : PgBossConfig) (c : JobClassDesc),
      (extractJobConfigV2 cfg c).workOptions = c.workOptions) := by
  refine ⟨?_, ?_, fun _ _ => rfl, fun _ _ => rfl⟩
  · intro c q w hq hw hnd
    have h01 : 0 < ([("queue", JsValue.str q)] : OptionsObj).length := by simp
    have hlen : 0 < (objAssign [("queue", JsValue.str q)] w).length :=
      lt_of_lt_of_le h01 (length_le_objAssign [("queue", JsValue.str q)] w)
    refine ⟨objAssign [("queue", JsValue.str q)] w, ?_, ?_⟩
    · simp [getWorkOptionsV1, hq, hw, objSet, hlen]
    · rw [objGet_objAssign _ _ _ hnd]
      cases hg : objGet w "queue" <;> simp [hg, objGet]
  · intro c q hq hw
    simp [getWorkOptionsV1, hq, hw, objSet]

/-- Witness for C4 as amended: the handler's own options override the
injected queue, and a queue-only descriptor still gets a bag. -/
theorem c4_work_options_queue_injection_witness :
    (∃ o, getWorkOptionsV1 ⟨"ProcessPaymentJob", none, some "payments", none, none,
          some [("teamSize", JsValue.num 3), ("queue", JsValue.str "override")],
          none, true⟩ = some o ∧
        objGet o "queue" =
          some ((objGet [("teamSize", JsValue.num 3), ("queue", JsValue.str "override")]
            "queue").getD (JsValue.str "payments"))) ∧
    getWorkOptionsV1 ⟨"SendEmailJob", none, some "emails", none, none, none,
        none, true⟩ =
      some [("queue", JsValue.str "emails")] :=
  ⟨c4_work_options_queue_injection.1
      ⟨"ProcessPaymentJob", none, some "payments", none, none,
        some [("teamSize", JsValue.num 3), ("queue", JsValue.str "override")],
        none, true⟩
      "payments" [("teamSize", JsValue.num 3), ("queue", JsValue.str "override")]
      rfl rfl (by unfold keysNodup; decide),
   c4_work_options_queue_injection.2.1
      ⟨"SendEmailJob", none, some "emails", none, none, none, none, true⟩
      "emails" rfl rfl⟩

mutual
theorem scanEntryAcc_eq_append (d : String) (files : List String) :
    (e : FsEntry) → scanEntryAcc d files e = files ++ collectEntry d e
  | .file n => by
    by_cases h : isJobFile n = true <;> simp [scanEntryAcc, collectEntry, h]
  | .dir n sub => by
    rw [show scanEntryAcc d files (.dir n sub) =
        scanEntriesAcc (joinPath d n) files sub from rfl]
    rw [scanEntriesAcc_eq_append (joinPath d n) files sub]
    rfl

theorem scanEntriesAcc_eq_append (d : String) (files : List String) :
    (es : FsEntries) → scanEntriesAcc d files es = files ++ collectEntries d es
  | .nil => by simp [scanEntriesAcc, collectEntries]
  | .cons e rest => by
    rw [show scanEntriesAcc d files (.cons e rest) =
        scanEntriesAcc d (scanEntryAcc d files e) rest from rfl]
    rw [scanEntriesAcc_eq_append d (scanEntryAcc d files e) rest,
        scanEntryAcc_eq_append d files e]
    simp [collectEntries, List.append_assoc]
end

mutual
theorem mem_collectEntry (d p : String) :
    (e : FsEntry) → (p ∈ collectEntry d e ↔ EntryFileAt d e p)
  | .file n => by
    constructor
    · intro hm
      by_cases h : isJobFile n = true
      · simp only [collectEntry, if_pos h, List.mem_singleton] at hm
        subst hm
        exact EntryFileAt.file h
      · simp [collectEntry, h] at hm
    · intro ha
      cases ha with
      | file h => simp [collectEntry, h]
  | .dir n sub => by
    constructor
    · intro hm
      exact EntryFileAt.dir ((mem_collectEntries (joinPath d n) p sub).mp
        (by simpa [collectEntry] using hm))
    · intro ha
      cases ha with
      | dir h =>
        simpa [collectEntry] using (mem_collectEntries (joinPath d n) p sub).mpr h

theorem mem_collectEntries (d p : String) :
    (es : FsEntries) → (p ∈ collectEntries d es ↔ JobFileAt d es p)
  | .nil => by
    constructor
    · intro hm
      simp [collectEntries] at hm
    · intro ha
      cases ha
  | .cons e rest => by
    constructor
    · intro hm
      rcases List.mem_append.mp (by simpa [collectEntries] using hm) with hl | hr
      · exact JobFileAt.head ((mem_collectEntry d p e).mp hl)
      · exact JobFileAt.tail ((mem_collectEntries d p rest).mp hr)
    · intro ha
      cases ha with
      | head h =>
        simp only [collectEntries, List.mem_append]
        exact Or.inl ((mem_collectEntry d p e).mpr h)
      | tail h =>
        simp only [collectEntries, List.mem_append]
        exact Or.inr ((mem_collectEntries d p rest).mpr h)
end

/-- C8: scanning a non-existent directory (a root whose readdir fails,
modelled by `none`) returns the empty list rather than an error; and over
any directory tree, a path is returned exactly when it names a file, at any
nesting depth, whose filename matches the job-file suffix convention — the
match requirement and the joined path being recorded in the `JobFileAt`
reachability predicate. -/
theorem c8_scan_job_files :
    (∀ root : String, scanJobFiles root none = []) ∧
    (∀ (root : String) (es : FsEntries) (p : String),
      p ∈ scanJobFiles root (some es) ↔ JobFileAt root es p) := by
  refine ⟨fun _ => rfl, fun root es p => ?_⟩
  rw [show scanJobFiles root (some es) = scanEntriesAcc root [] es from rfl,
      scanEntriesAcc_eq_append root [] es]
  simpa using mem_collectEntries root p es

end JobsSpec
